/-
Verification of the watermark-removal application (gemini4).

Part 1 models the core watermark engine.  The repository ships only the
browser shell (`src/app.js`); the core module `src/core/watermarkEngine.js`
(WatermarkEngine, GeometryResolver, RegionSynthesizer) is imported by the
shell but its source is not present, so the core is modelled from the
specification's contract (sections 3, 4 and 7 of the spec).

Part 2 embeds the shell `src/app.js` itself: file admission
(`handleFiles`), EXIF inspection (`checkOriginal`), and the sequential
processing queue (`processQueue` / `processSingle`) as a trace-producing
state transformer.
-/
import Mathlib

set_option autoImplicit false

/-! ### Part 1: the core engine, modelled from the spec -/

/-- Pixel coordinates of the top-left corner of the watermark region. -/
structure WmPosition where
  x : Nat
  y : Nat
deriving DecidableEq

/-- Modelled from the spec: `WatermarkRegion` of the missing core module
`src/core/watermarkEngine.js` — a square sub-rectangle `{ size, position }`
fully contained in the image bounds. -/
structure WatermarkRegion where
  size : Nat
  position : WmPosition
deriving DecidableEq

/-- Modelled from the spec: nominal watermark edge length for a given
smaller image dimension — "a size that scales with the smaller image
dimension, subject to a minimum and maximum absolute pixel size"
(spec 4.1).  The numeric constants are representative; the spec leaves
them open (spec 9). -/
def wmNominal (minDim : Nat) : Nat :=
  min 256 (max 48 (minDim * 15 / 100))

/-- Modelled from the spec: the resolved edge length — the nominal size
shrunk to fit the image ("shrink size to fit, never exceed image bounds",
spec 4.1), computed from the minimum of width and height. -/
def wmSize (width height : Nat) : Nat :=
  min (wmNominal (min width height)) (min width height)

/-- Modelled from the spec: the inset margin from the bottom-right image
edge, scaling with image size and clamped so the region never leaves the
frame (spec 4.1). -/
def wmMargin (width height : Nat) : Nat :=
  min (min width height * 2 / 100)
    (min (width - wmSize width height) (height - wmSize width height))

/-- Modelled from the spec: `GeometryResolver.resolve` of the missing core
module — pure function from image dimensions to the watermark rectangle,
anchored near the bottom-right corner (spec 4.1). -/
def resolve (width height : Nat) : WatermarkRegion :=
  ⟨wmSize width height,
    ⟨width - wmSize width height - wmMargin width height,
      height - wmSize width height - wmMargin width height⟩⟩

/-- One RGBA pixel (four 8-bit channels). -/
abbrev Pixel := Nat × Nat × Nat × Nat

/-- A decoded raster image: dimensions plus a pixel lookup
(row-major `width × height × 4` buffer in the spec's data model). -/
structure RasterImage where
  width : Nat
  height : Nat
  pix : Nat → Nat → Pixel

/-- Whether pixel `(x, y)` lies inside the watermark region `r`. -/
def inRegion (r : WatermarkRegion) (x y : Nat) : Bool :=
  decide (r.position.x ≤ x) && decide (x < r.position.x + r.size) &&
    decide (r.position.y ≤ y) && decide (y < r.position.y + r.size)

/-- Modelled from the spec: the baseline content-aware fill of the missing
`RegionSynthesizer` — a replacement pixel is derived from nearby
non-region source pixels (spec 4.2).  The claims under verification do
not constrain the synthesized values themselves, only that synthesis
reads the source image. -/
def synthesizePix (img : RasterImage) (r : WatermarkRegion) (x y : Nat) : Pixel :=
  if 0 < r.position.y then img.pix x (r.position.y - 1)
  else if 0 < r.position.x then img.pix (r.position.x - 1) y
  else img.pix x y

/-- Modelled from the spec: `ProcessingError` — zero-area or otherwise
unprocessable source image (spec 7). -/
inductive ProcessingError where
  | zeroArea
deriving DecidableEq

/-- Modelled from the spec: `WatermarkEngine.removeWatermark` of the
missing core module — fails on a zero-area source, otherwise splices the
synthesized patch into a copy of the source and returns the copy
(spec 4.3).  The source image is a read-only input: the result is a new
`RasterImage` value and the argument is never changed. -/
def removeWatermark (img : RasterImage) : Except ProcessingError RasterImage :=
  if img.width = 0 ∨ img.height = 0 then
    Except.error ProcessingError.zeroArea
  else
    Except.ok
      ⟨img.width, img.height,
        fun x y =>
          if inRegion (resolve img.width img.height) x y then
            synthesizePix img (resolve img.width img.height) x y
          else img.pix x y⟩

/-- Modelled from the spec: `InvalidDimensionsError` — non-positive width
or height passed to the geometry query (spec 7). -/
inductive InvalidDimensionsError where
  | nonPositiveDims
deriving DecidableEq

/-- Modelled from the spec: `WatermarkEngine.getWatermarkInfo` of the
missing core module — delegates to the GeometryResolver for positive
dimensions, fails with `InvalidDimensionsError` for non-positive input
(spec 4.3). -/
def getWatermarkInfo (width height : Int) : Except InvalidDimensionsError WatermarkRegion :=
  if width ≤ 0 ∨ height ≤ 0 then
    Except.error InvalidDimensionsError.nonPositiveDims
  else
    Except.ok (resolve width.toNat height.toNat)

/-- Concrete 100×100 uniform-gray raster used to witness removal claims. -/
def imgGray100 : RasterImage :=
  ⟨100, 100, fun _ _ => (200, 200, 200, 255)⟩

/-- Concrete zero-area raster (width 0) used to witness the error path. -/
def imgZero : RasterImage :=
  ⟨0, 100, fun _ _ => (0, 0, 0, 0)⟩

/-- Concrete small non-zero-area raster used to witness the success path. -/
def imgSmall : RasterImage :=
  ⟨10, 50, fun x y => (x % 256, y % 256, 0, 255)⟩

/-! ### Part 2: the shell, embedded from src/app.js -/

/-- Status of a queue item in the shell
(`status` field of the objects built in `handleFiles`, src/app.js). -/
inductive ItemStatus where
  | pending
  | processing
  | completed
  | error
deriving DecidableEq

/-- A browser `File` as the shell reads it: name, MIME type string
(`file.type`) and byte size (`file.size`). -/
structure BrowserFile where
  name : String
  mime : String
  size : Nat
deriving DecidableEq

/-- Does `pat` occur at the head of `s`?  (Character-list helper for the
unanchored JavaScript regex test below.) -/
def listStarts : List Char → List Char → Bool
  | [], _ => true
  | _ :: _, [] => false
  | p :: ps, c :: cs => p == c && listStarts ps cs

/-- Does `pat` occur anywhere inside `s`? -/
def hasSub (pat : List Char) : List Char → Bool
  | [] => listStarts pat []
  | c :: rest => listStarts pat (c :: rest) || hasSub pat rest

/-- The test `file.type.match('image/(jpeg|png|webp)')` of `handleFiles`
(src/app.js line 122): the regex is unanchored, so it succeeds exactly
when the type string contains `image/jpeg`, `image/png` or `image/webp`
as a substring. -/
def jsImageTypeMatch (s : String) : Bool :=
  hasSub "image/jpeg".toList s.toList || hasSub "image/png".toList s.toList ||
    hasSub "image/webp".toList s.toList

/-- The filter predicate of `handleFiles` (src/app.js lines 121-125): the
MIME type must match the image regex and the size must not exceed
20 MiB. -/
def isValidFile (f : BrowserFile) : Bool :=
  jsImageTypeMatch f.mime && decide (f.size ≤ 20 * 1024 * 1024)

/-- One entry of the shell's `imageQueue`
(src/app.js lines 129-136; the fields not used by the verified claims —
the `File` handle and the image/blob slots — are omitted). -/
structure QueueItem where
  id : Nat
  name : String
  status : ItemStatus
deriving DecidableEq

/-- The queue construction of `handleFiles` (src/app.js lines 129-136):
`validFiles.map((file, index) => ({ id: Date.now() + index, name:
file.name, status: 'pending', ... }))`, with `now` standing for
`Date.now()`. -/
def mkQueueItems (now idx : Nat) : List BrowserFile → List QueueItem
  | [] => []
  | f :: rest => ⟨now + idx, f.name, ItemStatus.pending⟩ :: mkQueueItems now (idx + 1) rest

/-- `handleFiles` (src/app.js lines 120-153): filter the selected files,
return early — leaving the previous queue untouched and starting no
processing — when nothing passes, otherwise replace the queue with
pending items for exactly the valid files and start processing.  The
returned Boolean records whether processing
(`processSingle`/`processQueue`) was started. -/
def handleFiles (now : Nat) (prevQueue : List QueueItem)
    (files : List BrowserFile) : List QueueItem × Bool :=
  let validFiles := files.filter isValidFile
  if validFiles.length = 0 then (prevQueue, false)
  else (mkQueueItems now 0 validFiles, true)

/-- The EXIF fields `checkOriginal` reads (src/app.js lines 98-102):
`Credit`, `ImageWidth`, `ImageHeight`; each may be absent. -/
structure ExifData where
  credit : Option String
  imageWidth : Option Nat
  imageHeight : Option Nat
deriving DecidableEq

/-- The record `checkOriginal` returns (src/app.js lines 99-104). -/
structure OriginalInfo where
  is_google : Bool
  is_original : Bool
deriving DecidableEq

/-- JavaScript truthiness of `exif?.[key]` for a numeric EXIF field:
the field must be present and non-zero. -/
def truthyNat : Option Nat → Bool
  | none => false
  | some n => n != 0

/-- `checkOriginal` (src/app.js lines 96-106).  The argument models the
outcome of `await exifr.parse(file, { xmp: true })`: `Except.error` when
the parser throws (caught by the `catch` branch), `Except.ok none` when
it resolves to `undefined` (the optional-chaining reads then yield
`undefined`, which is falsy), `Except.ok (some exif)` otherwise.
`is_google` tests `exif?.Credit === 'Made with Google AI'`;
`is_original` tests that `ImageWidth` and `ImageHeight` are both
truthy. -/
def checkOriginal : Except Unit (Option ExifData) → OriginalInfo
  | Except.error _ => ⟨false, false⟩
  | Except.ok none => ⟨false, false⟩
  | Except.ok (some exif) =>
      ⟨exif.credit == some "Made with Google AI",
        truthyNat exif.imageWidth && truthyNat exif.imageHeight⟩

/-- Calls the shell makes into the core engine, for the control-flow
claims: engine construction (`WatermarkEngine.create` in `init`), the
geometry query (`getWatermarkInfo`) and the removal call
(`removeWatermarkFromImage`), the latter two tagged with the index of
the image they are made for. -/
inductive ShellEvent where
  | engineCreate
  | geometryQuery (i : Nat)
  | removalCall (i : Nat)
deriving DecidableEq

/-- Engine calls of `processSingle` (src/app.js lines 161-199): the
geometry query (line 174) followed by the removal call (line 181); both
calls are issued even when the removal later rejects (the `catch` only
skips the display steps after them). -/
def processSingleTrace (i : Nat) : List ShellEvent :=
  [ShellEvent.geometryQuery i, ShellEvent.removalCall i]

/-- Engine calls of the processing loop of `processQueue`
(src/app.js lines 231-265) over items `i, i+1, …, i+n-1`: each item
issues its removal call (line 238) and, when the removal resolves
(`ok`), the geometry query for its status card (line 245); a rejected
removal jumps to the `catch` branch, which issues no engine call.
`ok j` models whether the removal promise for item `j` resolves. -/
def processQueueEvents (ok : Nat → Bool) : Nat → Nat → List ShellEvent
  | _, 0 => []
  | i, n + 1 =>
      ShellEvent.removalCall i ::
        ((if ok i then [ShellEvent.geometryQuery i] else []) ++
          processQueueEvents ok (i + 1) n)

/-- Engine calls of one shell run (src/app.js): `init` constructs the
engine once (line 38), then `handleFiles` routes a single valid file to
`processSingle` and several to `processQueue` (lines 140-152).  `n` is
the number of queued images. -/
def shellTrace (ok : Nat → Bool) (n : Nat) : List ShellEvent :=
  ShellEvent.engineCreate ::
    (if n = 1 then processSingleTrace 0 else processQueueEvents ok 0 n)

/-- Start/finish events of the removal calls of `processQueue`
(src/app.js lines 231-265), for the sequencing claims: `start i` marks
`item.status = 'processing'` just before the awaited removal call,
`finish i ok` marks the settlement of that call (`completed` or
`error`). -/
inductive QEvent where
  | start (i : Nat)
  | finish (i : Nat) (ok : Bool)
deriving DecidableEq

/-- Result of one run of the processing loop of `processQueue`
(src/app.js lines 231-265): the final queue items, the final
`processedCount`, and the start/finish trace of the removal calls. -/
structure QueueRun where
  items : List QueueItem
  processed : Nat
  trace : List QEvent
deriving DecidableEq

/-- The processing loop of `processQueue` (src/app.js lines 231-265),
item by item from index `i`: non-pending items are skipped (line 232);
a pending item is set to `processing`, its removal is awaited, and on
resolution the item becomes `completed` and `processedCount` is
incremented (lines 234-259) while on rejection the `catch` branch sets
the item to `error` and the loop continues with the next item
(lines 260-264).  `ok j` models whether the removal promise for item
`j` resolves. -/
def processQueueRun (ok : Nat → Bool) : Nat → List QueueItem → QueueRun
  | _, [] => ⟨[], 0, []⟩
  | i, item :: rest =>
      if item.status = ItemStatus.pending then
        let r := processQueueRun ok (i + 1) rest
        if ok i then
          ⟨⟨item.id, item.name, ItemStatus.completed⟩ :: r.items, r.processed + 1,
            QEvent.start i :: QEvent.finish i true :: r.trace⟩
        else
          ⟨⟨item.id, item.name, ItemStatus.error⟩ :: r.items, r.processed,
            QEvent.start i :: QEvent.finish i false :: r.trace⟩
      else
        let r := processQueueRun ok (i + 1) rest
        ⟨item :: r.items, r.processed, r.trace⟩

/-- The effect of the loop body of `processQueue` on a single item
(src/app.js lines 232-264): skipped when not pending, otherwise
`completed` or `error` according to whether its removal resolves. -/
def stepItem (ok : Nat → Bool) (i : Nat) (item : QueueItem) : QueueItem :=
  if item.status = ItemStatus.pending then
    if ok i then ⟨item.id, item.name, ItemStatus.completed⟩
    else ⟨item.id, item.name, ItemStatus.error⟩
  else item

/-- Sequencing checker: scans a start/finish trace keeping the index of
the item whose removal is outstanding (`some i`) or `none`; it accepts
exactly the traces in which no removal starts while another is
outstanding, every finish matches the outstanding start, and nothing is
left outstanding at the end. -/
def seqOk : Option Nat → List QEvent → Bool
  | none, [] => true
  | some _, [] => false
  | none, QEvent.start i :: t => seqOk (some i) t
  | none, QEvent.finish _ _ :: _ => false
  | some i, QEvent.finish j _ :: t => i == j && seqOk none t
  | some _, QEvent.start _ :: _ => false

/-- The indices of the `start` events of a trace, in order. -/
def startsOf : List QEvent → List Nat
  | [] => []
  | QEvent.start i :: t => i :: startsOf t
  | QEvent.finish _ _ :: t => startsOf t

/-- The successive statuses that the trace assigns to item `i`:
`start i` sets it to `processing`, `finish i ok` to `completed` or
`error`. -/
def statusHistory (i : Nat) : List QEvent → List ItemStatus
  | [] => []
  | QEvent.start j :: t =>
      if i = j then ItemStatus.processing :: statusHistory i t
      else statusHistory i t
  | QEvent.finish j ok :: t =>
      if i = j then
        (if ok then ItemStatus.completed else ItemStatus.error) :: statusHistory i t
      else statusHistory i t

/-- The status transitions the shell allows a queue item:
pending → processing → (completed | error). -/
def allowedStep : ItemStatus → ItemStatus → Bool
  | ItemStatus.pending, ItemStatus.processing => true
  | ItemStatus.processing, ItemStatus.completed => true
  | ItemStatus.processing, ItemStatus.error => true
  | _, _ => false

/-- Does every consecutive pair of the status list follow
`allowedStep`? -/
def chainOk : List ItemStatus → Bool
  | [] => true
  | [_] => true
  | a :: b :: t => allowedStep a b && chainOk (b :: t)

/-- Concrete file list used to witness the admission claim: a valid
JPEG, a GIF (wrong type) and an oversized PNG. -/
def sampleFiles : List BrowserFile :=
  [⟨"a.jpg", "image/jpeg", 1000⟩,
    ⟨"b.gif", "image/gif", 1000⟩,
    ⟨"c.png", "image/png", 30 * 1024 * 1024⟩]

/-- Concrete two-item pending queue used to witness the queue claims. -/
def sampleQueue : List QueueItem :=
  [⟨1, "a.jpg", ItemStatus.pending⟩, ⟨2, "b.png", ItemStatus.pending⟩]

/-- Concrete removal outcome used by the queue witnesses: the removal
for item 0 rejects, every other removal resolves. -/
def failFirst (i : Nat) : Bool :=
  i != 0

/-! ### Claim C1 -/

/-- C1: for every positive `(width, height)`, `resolve` returns a region
with `size > 0`, `position.x + size ≤ width` and
`position.y + size ≤ height`; the size is computed from
`min width height`, so the square region stays fully inside the frame
even for tiny images and extreme aspect ratios. -/
theorem resolve_in_bounds (width height : Nat)
    (hw : 0 < width) (hh : 0 < height) :
    0 < (resolve width height).size ∧
      (resolve width height).position.x + (resolve width height).size ≤ width ∧
      (resolve width height).position.y + (resolve width height).size ≤ height := by
  simp only [resolve, wmSize, wmMargin, wmNominal]
  omega

/-- C1 witness: at the concrete input `(1920, 1080)` the resolved region
is positive-sized and in bounds. -/
theorem resolve_in_bounds_witness :
    0 < (1920 : Nat) ∧ 0 < (1080 : Nat) ∧
      (0 < (resolve 1920 1080).size ∧
        (resolve 1920 1080).position.x + (resolve 1920 1080).size ≤ 1920 ∧
        (resolve 1920 1080).position.y + (resolve 1920 1080).size ≤ 1080) :=
  ⟨by decide, by decide, resolve_in_bounds 1920 1080 (by decide) (by decide)⟩

/-! ### Claim C2 -/

/-- C2: for every source image with non-zero-area dimensions, removal
returns a new image of identical width and height whose every pixel
outside the resolved watermark region equals the corresponding source
pixel; the source value is read-only and never changed. -/
theorem removeWatermark_frame (img : RasterImage)
    (hw : img.width ≠ 0) (hh : img.height ≠ 0) :
    ∃ out, removeWatermark img = Except.ok out ∧
      out.width = img.width ∧ out.height = img.height ∧
      ∀ x y, inRegion (resolve img.width img.height) x y = false →
        out.pix x y = img.pix x y := by
  unfold removeWatermark
  rw [if_neg (by tauto)]
  refine ⟨_, rfl, rfl, rfl, ?_⟩
  intro x y hxy
  simp [hxy]

/-- C2 witness: on the concrete 100×100 gray image, removal succeeds,
preserves the dimensions, and leaves the out-of-region pixel `(0, 0)`
byte-identical to the source. -/
theorem removeWatermark_frame_witness :
    imgGray100.width ≠ 0 ∧ imgGray100.height ≠ 0 ∧
      ∃ out, removeWatermark imgGray100 = Except.ok out ∧
        out.width = imgGray100.width ∧ out.height = imgGray100.height ∧
        out.pix 0 0 = imgGray100.pix 0 0 := by
  obtain ⟨out, h1, h2, h3, h4⟩ :=
    removeWatermark_frame imgGray100 (by decide) (by decide)
  exact ⟨by decide, by decide, out, h1, h2, h3, h4 0 0 (by decide)⟩

/-! ### Claim C3 -/

/-- C3: removal on a ready engine fails (with `ProcessingError.zeroArea`,
and atomically — no image value is returned alongside the error) exactly
when the source has zero-area dimensions, and for every non-zero-area
source it never fails. -/
theorem removeWatermark_error_iff (img : RasterImage) :
    ((img.width = 0 ∨ img.height = 0) →
        removeWatermark img = Except.error ProcessingError.zeroArea) ∧
      (img.width ≠ 0 → img.height ≠ 0 →
        ∃ out, removeWatermark img = Except.ok out) := by
  constructor
  · intro h
    unfold removeWatermark
    rw [if_pos h]
  · intro hw hh
    unfold removeWatermark
    rw [if_neg (by tauto)]
    exact ⟨_, rfl⟩

/-- C3 witness: the concrete zero-width image fails with
`ProcessingError.zeroArea`, and the concrete 10×50 image succeeds. -/
theorem removeWatermark_error_iff_witness :
    (imgZero.width = 0 ∨ imgZero.height = 0) ∧
      removeWatermark imgZero = Except.error ProcessingError.zeroArea ∧
      imgSmall.width ≠ 0 ∧ imgSmall.height ≠ 0 ∧
      ∃ out, removeWatermark imgSmall = Except.ok out :=
  ⟨by decide,
    (removeWatermark_error_iff imgZero).1 (by decide),
    by decide, by decide,
    (removeWatermark_error_iff imgSmall).2 (by decide) (by decide)⟩

/-! ### Claim C4 -/

/-- C4: `getWatermarkInfo` fails with `InvalidDimensionsError` exactly
when width or height is non-positive; for every positive pair it returns
the GeometryResolver region; in particular `getWatermarkInfo 0 100`
fails with `InvalidDimensionsError`. -/
theorem getWatermarkInfo_spec :
    (∀ width height : Int,
        (∃ e, getWatermarkInfo width height = Except.error e) ↔
          width ≤ 0 ∨ height ≤ 0) ∧
      (∀ width height : Int, 0 < width → 0 < height →
        getWatermarkInfo width height =
          Except.ok (resolve width.toNat height.toNat)) ∧
      getWatermarkInfo 0 100 =
        Except.error InvalidDimensionsError.nonPositiveDims := by
  refine ⟨?_, ?_, ?_⟩
  · intro w h
    constructor
    · rintro ⟨e, he⟩
      by_contra hc
      push_neg at hc
      unfold getWatermarkInfo at he
      rw [if_neg (by omega)] at he
      exact Except.noConfusion he
    · intro hle
      refine ⟨InvalidDimensionsError.nonPositiveDims, ?_⟩
      unfold getWatermarkInfo
      rw [if_pos hle]
  · intro w h hw hh
    unfold getWatermarkInfo
    rw [if_neg (by omega)]
  · unfold getWatermarkInfo
    rw [if_pos (Or.inl le_rfl)]

/-- C4 witness: at the concrete positive input `(5, 7)` the query
succeeds and returns the resolver region. -/
theorem getWatermarkInfo_spec_witness :
    (0 : Int) < 5 ∧ (0 : Int) < 7 ∧
      getWatermarkInfo 5 7 = Except.ok (resolve (5 : Int).toNat (7 : Int).toNat) :=
  ⟨by decide, by decide, getWatermarkInfo_spec.2.1 5 7 (by decide) (by decide)⟩

/-! ### Claim C5 -/

/-- C5: `resolve` is deterministic — it is a pure function of
`(width, height)` only, so two calls with identical inputs yield
identical regions. -/
theorem resolve_deterministic (w1 h1 w2 h2 : Nat)
    (hw : w1 = w2) (hh : h1 = h2) :
    resolve w1 h1 = resolve w2 h2 := by
  subst hw
  subst hh
  rfl

/-- C5 witness: two calls of `resolve` at the concrete input
`(1920, 1080)` agree. -/
theorem resolve_deterministic_witness :
    resolve 1920 1080 = resolve 1920 1080 :=
  resolve_deterministic 1920 1080 1920 1080 rfl rfl

/-! ### Claim C6 -/

/-- Helper: queue items built by `mkQueueItems` carry the names of the
given files, in order. -/
theorem mkQueueItems_map_name (now : Nat) (l : List BrowserFile) :
    ∀ idx, (mkQueueItems now idx l).map QueueItem.name = l.map BrowserFile.name := by
  induction l with
  | nil => intro idx; rfl
  | cons f rest ih => intro idx; simp [mkQueueItems, ih (idx + 1)]

/-- Helper: every queue item built by `mkQueueItems` starts pending. -/
theorem mkQueueItems_status (now : Nat) (l : List BrowserFile) :
    ∀ idx q, q ∈ mkQueueItems now idx l → q.status = ItemStatus.pending := by
  induction l with
  | nil => intro idx q hq; simp [mkQueueItems] at hq
  | cons f rest ih =>
      intro idx q hq
      rcases List.mem_cons.mp hq with h | h
      · rw [h]
      · exact ih (idx + 1) q h

/-- C6: `handleFiles` admits exactly the selected files whose MIME type
matches the image regex and whose size is within 20 MiB; when no file
passes, the previous queue is left untouched and no processing starts;
when some do, the queue holds exactly the admitted files (same names, in
order), all pending, and processing starts. -/
theorem handleFiles_admits (now : Nat) (prevQueue : List QueueItem)
    (files : List BrowserFile) :
    (∀ f, f ∈ files.filter isValidFile ↔
        (f ∈ files ∧ jsImageTypeMatch f.mime = true ∧
          f.size ≤ 20 * 1024 * 1024)) ∧
      (files.filter isValidFile = [] →
        handleFiles now prevQueue files = (prevQueue, false)) ∧
      (files.filter isValidFile ≠ [] →
        (handleFiles now prevQueue files).2 = true ∧
          (handleFiles now prevQueue files).1.map QueueItem.name =
            (files.filter isValidFile).map BrowserFile.name ∧
          ∀ q ∈ (handleFiles now prevQueue files).1,
            q.status = ItemStatus.pending) := by
  refine ⟨?_, ?_, ?_⟩
  · intro f
    simp [List.mem_filter, isValidFile, and_assoc]
  · intro h
    simp [handleFiles, h]
  · intro h
    have hlen : (files.filter isValidFile).length ≠ 0 := by
      intro hc
      exact h (List.eq_nil_of_length_eq_zero hc)
    refine ⟨?_, ?_, ?_⟩
    · simp [handleFiles, hlen]
    · simp only [handleFiles]
      rw [if_neg hlen]
      exact mkQueueItems_map_name now (files.filter isValidFile) 0
    · simp only [handleFiles]
      rw [if_neg hlen]
      exact mkQueueItems_status now (files.filter isValidFile) 0

/-- C6 witness: of the concrete selection (a small JPEG, a GIF, an
oversized PNG) exactly the JPEG is admitted, pending, and processing
starts. -/
theorem handleFiles_admits_witness :
    sampleFiles.filter isValidFile ≠ [] ∧
      (handleFiles 0 [] sampleFiles).2 = true ∧
      (handleFiles 0 [] sampleFiles).1.map QueueItem.name =
        (sampleFiles.filter isValidFile).map BrowserFile.name ∧
      (sampleFiles.filter isValidFile).map BrowserFile.name = ["a.jpg"] := by
  have h := (handleFiles_admits 0 [] sampleFiles).2.2 (by decide)
  exact ⟨by decide, h.1, h.2.1, by decide⟩

/-! ### Claim C9 -/

/-- C9: `checkOriginal` is total over its parse outcome: on a parser
exception it returns `{ is_google := false, is_original := false }`, and
on every outcome it returns a plain record of two Booleans — it never
propagates the exception. -/
theorem checkOriginal_total :
    (∀ e : Unit, checkOriginal (Except.error e) = ⟨false, false⟩) ∧
      ∀ r : Except Unit (Option ExifData),
        ∃ g o : Bool, checkOriginal r = ⟨g, o⟩ :=
  ⟨fun _ => rfl, fun r => ⟨(checkOriginal r).is_google, (checkOriginal r).is_original, rfl⟩⟩

/-! ### Claim C7 -/

/-- Helper: the processing loop never constructs the engine. -/
theorem engineCreate_not_mem_processQueueEvents (ok : Nat → Bool) :
    ∀ n i, ShellEvent.engineCreate ∉ processQueueEvents ok i n := by
  intro n
  induction n with
  | zero => intro i; simp [processQueueEvents]
  | succ n ih =>
      intro i
      cases hok : ok i <;> simp [processQueueEvents, hok, ih (i + 1)]

/-- Helper: the loop issues a removal call for every processed index. -/
theorem removalCall_mem_processQueueEvents (ok : Nat → Bool) :
    ∀ n s j, j < n →
      ShellEvent.removalCall (s + j) ∈ processQueueEvents ok s n := by
  intro n
  induction n with
  | zero => intro s j hj; omega
  | succ n ih =>
      intro s j hj
      cases j with
      | zero => simp [processQueueEvents]
      | succ j =>
          have hmem := ih (s + 1) j (by omega)
          have harith : s + (j + 1) = s + 1 + j := by omega
          rw [harith]
          cases hok : ok s <;>
            simp [processQueueEvents, hok, List.mem_append, hmem]

/-- Helper: the loop issues a geometry query for every index whose
removal resolves. -/
theorem geometryQuery_mem_processQueueEvents (ok : Nat → Bool) :
    ∀ n s j, j < n → ok (s + j) = true →
      ShellEvent.geometryQuery (s + j) ∈ processQueueEvents ok s n := by
  intro n
  induction n with
  | zero => intro s j hj; omega
  | succ n ih =>
      intro s j hj hok
      cases j with
      | zero =>
          have h0 : ok s = true := by simpa using hok
          simp [processQueueEvents, h0]
      | succ j =>
          have harith : s + (j + 1) = s + 1 + j := by omega
          rw [harith] at hok ⊢
          have hmem := ih (s + 1) j (by omega) hok
          cases hq : ok s <;>
            simp [processQueueEvents, hq, List.mem_append, hmem]

/-- C7: in one shell run the engine is constructed exactly once, at the
start, and for each queued image the shell issues the removal call, and
the geometry query for UI display (in `processQueue`, for the images
whose removal resolves; in `processSingle` the query precedes the
removal call). -/
theorem shellTrace_control_flow (ok : Nat → Bool) (n : Nat) :
    (∃ rest, shellTrace ok n = ShellEvent.engineCreate :: rest ∧
        ShellEvent.engineCreate ∉ rest) ∧
      (∀ i, i < n → ShellEvent.removalCall i ∈ shellTrace ok n) ∧
      (∀ i, i < n → ok i = true →
        ShellEvent.geometryQuery i ∈ shellTrace ok n) := by
  refine ⟨?_, ?_, ?_⟩
  · refine ⟨_, rfl, ?_⟩
    by_cases h1 : n = 1
    · simp [h1, processSingleTrace]
    · simp only [shellTrace, if_neg h1]
      exact engineCreate_not_mem_processQueueEvents ok n 0
  · intro i hi
    by_cases h1 : n = 1
    · have hi0 : i = 0 := by omega
      simp [shellTrace, h1, hi0, processSingleTrace]
    · have hmem := removalCall_mem_processQueueEvents ok n 0 i hi
      simp only [Nat.zero_add] at hmem
      simp [shellTrace, h1, hmem]
  · intro i hi hok
    by_cases h1 : n = 1
    · have hi0 : i = 0 := by omega
      simp [shellTrace, h1, hi0, processSingleTrace]
    · have hmem := geometryQuery_mem_processQueueEvents ok n 0 i hi
        (by simpa using hok)
      simp only [Nat.zero_add] at hmem
      simp [shellTrace, h1, hmem]

/-- C7 witness: in the concrete three-image run where only the first
removal rejects, the engine-creation event heads the trace and image 1
receives both its removal call and its geometry query. -/
theorem shellTrace_control_flow_witness :
    (1 : Nat) < 3 ∧ failFirst 1 = true ∧
      ShellEvent.removalCall 1 ∈ shellTrace failFirst 3 ∧
      ShellEvent.geometryQuery 1 ∈ shellTrace failFirst 3 :=
  ⟨by decide, by decide,
    (shellTrace_control_flow failFirst 3).2.1 1 (by decide),
    (shellTrace_control_flow failFirst 3).2.2 1 (by decide) (by decide)⟩

/-! ### Claim C8 -/

/-- Helper: the sequential processing loop acts on each queue position
independently — the item at position `j` of the result is exactly the
loop body applied to the item at position `j` of the input. -/
theorem processQueueRun_get (ok : Nat → Bool) :
    ∀ (queue : List QueueItem) (s j : Nat),
      ((processQueueRun ok s queue).items)[j]? =
        (queue[j]?).map (fun item => stepItem ok (s + j) item) := by
  intro queue
  induction queue with
  | nil => intro s j; simp [processQueueRun]
  | cons item rest ih =>
      intro s j
      cases j with
      | zero =>
          by_cases hp : item.status = ItemStatus.pending
          · cases hok : ok s <;> simp [processQueueRun, hp, hok, stepItem]
          · simp [processQueueRun, hp, stepItem]
      | succ j =>
          have harith : s + (j + 1) = s + 1 + j := by omega
          by_cases hp : item.status = ItemStatus.pending
          · cases hok : ok s <;>
              simp [processQueueRun, hp, hok, ih (s + 1) j, harith]
          · simp [processQueueRun, hp, ih (s + 1) j, harith]

/-- C8: a removal failure is surfaced, not swallowed: when the removal
for the pending item at position `i` rejects, the loop leaves that item
with status `error`, and every other item of the queue is still handled
normally by the loop body (processing continues past the failure). -/
theorem processQueue_error_continues (ok : Nat → Bool)
    (queue : List QueueItem) (i : Nat) (item : QueueItem)
    (hq : queue[i]? = some item) (hp : item.status = ItemStatus.pending)
    (hok : ok i = false) :
    ((processQueueRun ok 0 queue).items)[i]? =
        some ⟨item.id, item.name, ItemStatus.error⟩ ∧
      ∀ j itemj, queue[j]? = some itemj →
        ((processQueueRun ok 0 queue).items)[j]? =
          some (stepItem ok j itemj) := by
  constructor
  · rw [processQueueRun_get ok queue 0 i, hq]
    simp [stepItem, hp, hok]
  · intro j itemj hj
    rw [processQueueRun_get ok queue 0 j, hj]
    simp

/-- C8 witness: on the concrete two-item pending queue where the removal
for item 0 rejects, item 0 ends in status `error` and item 1 is still
handled by the loop body. -/
theorem processQueue_error_continues_witness :
    sampleQueue[0]? = some ⟨1, "a.jpg", ItemStatus.pending⟩ ∧
      failFirst 0 = false ∧
      ((processQueueRun failFirst 0 sampleQueue).items)[0]? =
        some ⟨1, "a.jpg", ItemStatus.error⟩ ∧
      ((processQueueRun failFirst 0 sampleQueue).items)[1]? =
        some (stepItem failFirst 1 ⟨2, "b.png", ItemStatus.pending⟩) := by
  have h := processQueue_error_continues failFirst sampleQueue 0
    ⟨1, "a.jpg", ItemStatus.pending⟩ (by decide) (by decide) (by decide)
  exact ⟨by decide, by decide, h.1, h.2 1 ⟨2, "b.png", ItemStatus.pending⟩ (by decide)⟩

/-! ### Claim C10 -/

/-- Helper: the loop's start/finish trace is strictly sequential — every
removal that starts finishes before the next one starts, so at most one
removal is outstanding at any point. -/
theorem processQueueRun_seqOk (ok : Nat → Bool) :
    ∀ (queue : List QueueItem) (s : Nat),
      seqOk none (processQueueRun ok s queue).trace = true := by
  intro queue
  induction queue with
  | nil => intro s; rfl
  | cons item rest ih =>
      intro s
      by_cases hp : item.status = ItemStatus.pending
      · cases hok : ok s <;> simp [processQueueRun, hp, hok, seqOk, ih (s + 1)]
      · simp [processQueueRun, hp, ih (s + 1)]

/-- Helper: every start index in the trace of a loop run beginning at
position `s` is at least `s`. -/
theorem processQueueRun_starts_lb (ok : Nat → Bool) :
    ∀ (queue : List QueueItem) (s x : Nat),
      x ∈ startsOf (processQueueRun ok s queue).trace → s ≤ x := by
  intro queue
  induction queue with
  | nil => intro s x hx; simp [processQueueRun, startsOf] at hx
  | cons item rest ih =>
      intro s x hx
      by_cases hp : item.status = ItemStatus.pending
      · cases hok : ok s <;>
          · simp [processQueueRun, hp, hok, startsOf] at hx
            rcases hx with h | h
            · omega
            · have := ih (s + 1) x h
              omega
      · simp [processQueueRun, hp] at hx
        have := ih (s + 1) x hx
        omega

/-- Helper: the removals start in strictly increasing queue order. -/
theorem processQueueRun_starts_chain (ok : Nat → Bool) :
    ∀ (queue : List QueueItem) (s : Nat),
      List.Chain' (fun a b => a < b)
        (startsOf (processQueueRun ok s queue).trace) := by
  intro queue
  induction queue with
  | nil => intro s; simp [processQueueRun, startsOf]
  | cons item rest ih =>
      intro s
      by_cases hp : item.status = ItemStatus.pending
      · have htr : (processQueueRun ok s (item :: rest)).trace =
            QEvent.start s :: QEvent.finish s (ok s) ::
              (processQueueRun ok (s + 1) rest).trace := by
          cases hok : ok s <;> simp [processQueueRun, hp, hok]
        rw [htr]
        simp only [startsOf]
        rw [List.chain'_cons']
        constructor
        · intro y hy
          have hmem := List.mem_of_mem_head? hy
          have := processQueueRun_starts_lb ok rest (s + 1) y hmem
          omega
        · exact ih (s + 1)
      · simp [processQueueRun, hp, ih (s + 1)]

/-- Helper: a loop run starting at position `s` emits no events for any
index below `s`. -/
theorem statusHistory_small (ok : Nat → Bool) :
    ∀ (queue : List QueueItem) (s i : Nat), i < s →
      statusHistory i (processQueueRun ok s queue).trace = [] := by
  intro queue
  induction queue with
  | nil => intro s i hi; rfl
  | cons item rest ih =>
      intro s i hi
      by_cases hp : item.status = ItemStatus.pending
      · have htr : (processQueueRun ok s (item :: rest)).trace =
            QEvent.start s :: QEvent.finish s (ok s) ::
              (processQueueRun ok (s + 1) rest).trace := by
          cases hok : ok s <;> simp [processQueueRun, hp, hok]
        rw [htr]
        have hne : i ≠ s := by omega
        simp [statusHistory, hne, ih (s + 1) i (by omega)]
      · simp [processQueueRun, hp, ih (s + 1) i (by omega)]

/-- Helper: along a loop run, the recorded statuses of the item at
position `i` (starting from its initial status) follow only the allowed
transitions pending → processing → (completed | error). -/
theorem processQueueRun_statusChain (ok : Nat → Bool) :
    ∀ (queue : List QueueItem) (s i : Nat) (item : QueueItem),
      queue[i]? = some item →
      chainOk (item.status ::
        statusHistory (s + i) (processQueueRun ok s queue).trace) = true := by
  intro queue
  induction queue with
  | nil => intro s i item h; simp at h
  | cons it rest ih =>
      intro s i item h
      cases i with
      | zero =>
          have hit : it = item := by simpa using h
          subst hit
          by_cases hp : it.status = ItemStatus.pending
          · have htr : (processQueueRun ok s (it :: rest)).trace =
                QEvent.start s :: QEvent.finish s (ok s) ::
                  (processQueueRun ok (s + 1) rest).trace := by
              cases hok : ok s <;> simp [processQueueRun, hp, hok]
            rw [htr]
            have hsmall := statusHistory_small ok rest (s + 1) s (by omega)
            cases hok : ok s <;>
              simp [statusHistory, hsmall, hp, chainOk, allowedStep, hok]
          · have htr : (processQueueRun ok s (it :: rest)).trace =
                (processQueueRun ok (s + 1) rest).trace := by
              simp [processQueueRun, hp]
            rw [htr]
            have hsmall := statusHistory_small ok rest (s + 1) s (by omega)
            simp [hsmall, chainOk]
      | succ i =>
          have hrest : rest[i]? = some item := by simpa using h
          have harith : s + (i + 1) = s + 1 + i := by omega
          have hih := ih (s + 1) i item hrest
          by_cases hp : it.status = ItemStatus.pending
          · have htr : (processQueueRun ok s (it :: rest)).trace =
                QEvent.start s :: QEvent.finish s (ok s) ::
                  (processQueueRun ok (s + 1) rest).trace := by
              cases hok : ok s <;> simp [processQueueRun, hp, hok]
            rw [htr]
            have hne : s + (i + 1) ≠ s := by omega
            simp only [statusHistory, if_neg hne]
            rw [harith]
            exact hih
          · have htr : (processQueueRun ok s (it :: rest)).trace =
                (processQueueRun ok (s + 1) rest).trace := by
              simp [processQueueRun, hp]
            rw [htr, harith]
            exact hih

/-- C10: the shell's multi-image queue is processed strictly
sequentially — the start/finish trace is well nested with at most one
removal outstanding at any time, the removals start in queue order, and
each item's status evolves only along
pending → processing → (completed | error). -/
theorem processQueue_sequential (ok : Nat → Bool) (queue : List QueueItem) :
    seqOk none (processQueueRun ok 0 queue).trace = true ∧
      List.Chain' (fun a b => a < b)
        (startsOf (processQueueRun ok 0 queue).trace) ∧
      ∀ i item, queue[i]? = some item →
        chainOk (item.status ::
          statusHistory i (processQueueRun ok 0 queue).trace) = true := by
  refine ⟨processQueueRun_seqOk ok queue 0,
    processQueueRun_starts_chain ok queue 0, ?_⟩
  intro i item h
  have := processQueueRun_statusChain ok queue 0 i item h
  simpa using this

/-- C10 witness: on the concrete two-item pending queue with the first
removal rejecting, the trace is well nested and item 1's statuses follow
the allowed transitions. -/
theorem processQueue_sequential_witness :
    sampleQueue[1]? = some ⟨2, "b.png", ItemStatus.pending⟩ ∧
      seqOk none (processQueueRun failFirst 0 sampleQueue).trace = true ∧
      chainOk (ItemStatus.pending ::
        statusHistory 1 (processQueueRun failFirst 0 sampleQueue).trace) = true := by
  have h := processQueue_sequential failFirst sampleQueue
  exact ⟨by decide, h.1,
    h.2.2 1 ⟨2, "b.png", ItemStatus.pending⟩ (by decide)⟩
